import Mathlib

set_option maxRecDepth 4000

/-!
Shallow embedding of the Pearl-Ebook-Reader EPUB ingestion pipeline
(`lib/epub-parser.ts`, class `EpubParser`) and of the chapter content
rewriter (`components/reading-interface.tsx`, function `processContent`).

The two external facilities the code uses (the JSZip archive reader and
the browser's `DOMParser`) are modelled as data.  An archive is an
association list from entry paths to entries; an XML document is the
list of its element nodes in document order, each node carrying exactly
the fields the code reads (tag name, local name, attributes, text
content, inner markup) plus the local names of its proper ancestors,
which is what the CSS descendant queries used by the code inspect.
JavaScript `Map`s are modelled as association lists with insert-or-
replace-in-place semantics, which preserves the insertion-order
iteration the code relies on.
-/

deriving instance DecidableEq for Except

namespace Epub

/-- A zip archive entry as JSZip exposes it.  `text` / `b64` are the
results of `file.async("text")` / `file.async("base64")`; `none` models
the asynchronous read rejecting. -/
structure ZipEntry where
  text : Option String
  b64 : Option String
deriving DecidableEq

/-- The loaded archive: entry path to entry. -/
abbrev Archive := List (String × ZipEntry)

/-- `this.zip.file(path)`: `none` models the `null` return for a missing
entry. -/
def zipFile (z : Archive) (p : String) : Option ZipEntry :=
  (z.find? (fun e => e.1 == p)).map (fun e => e.2)

/-- The base64 payload of an archive entry, if the entry exists and the
base64 read succeeds (`zip.file(path)` non-null and `file.async("base64")`
resolving). -/
def b64Of (z : Archive) (p : String) : Option String :=
  match zipFile z p with
  | some f => f.b64
  | none => none

/-- The typed failures thrown by the parser (`throw new Error(...)` in
the source, distinguished by their messages). -/
inductive EpubError where
  /-- "Invalid EPUB: Could not find container.xml" -/
  | containerError
  /-- "File not found: `path`" -/
  | fileNotFound (path : String)
  /-- "Invalid XML content" -/
  | invalidXml
  /-- a rejected `file.async("text")` read propagating out of `getFileContent` -/
  | readFailure (path : String)
deriving DecidableEq

/-- `getFileContent`: throws `File not found` when the entry is absent;
a rejected text read also propagates. -/
def getFileContent (z : Archive) (p : String) : Except EpubError String :=
  match zipFile z p with
  | none => .error (.fileNotFound p)
  | some f =>
    match f.text with
    | some t => .ok t
    | none => .error (.readFailure p)

/-- One element node of a parsed document.  `ancestors` lists the local
names of the node's proper ancestors (used to evaluate the CSS
descendant selectors `metadata *`, `manifest item`, `spine itemref`). -/
structure XNode where
  tagName : String
  localName : String
  attrs : List (String × String)
  textContent : String
  innerHTML : String
  ancestors : List String
deriving DecidableEq

/-- A parsed document: its element nodes in document (pre-)order, the
order in which `querySelector` / `querySelectorAll` report matches. -/
abbrev XDoc := List XNode

/-- `element.getAttribute(name)`: `none` models the `null` return for an
absent attribute (an attribute present with empty value yields
`some ""`). -/
def getAttribute (n : XNode) (a : String) : Option String :=
  (n.attrs.find? (fun p => p.1 == a)).map (fun p => p.2)

/-- A JavaScript-truthy attribute read: `getAttribute` guarded by an
`if (value)` test, under which both `null` and `""` are falsy. -/
def truthyAttr (n : XNode) (a : String) : Option String :=
  match getAttribute n a with
  | some s => if s = "" then none else some s
  | none => none

/-- The environment's `DOMParser.parseFromString(·, "application/xml")`
combined with the `parsererror` check: `none` models a document that
contains a `parsererror` element. -/
abbrev Px := String → Option XDoc

/-- `parseXml`: throws "Invalid XML content" when the parsed document
carries a `parsererror` element. -/
def parseXml (px : Px) (s : String) : Except EpubError XDoc :=
  match px s with
  | some doc => .ok doc
  | none => .error .invalidXml

/-- JavaScript `a || b` on strings: the empty string is the only falsy
string. -/
def jsOr (a b : String) : String := if a = "" then b else a

/-- The JavaScript template-literal coercion applied to a possibly-null
string (`` `${x}` `` prints `null` as "null"). -/
def jsStr : Option String → String
  | some s => s
  | none => "null"

/-- `` `data:${mediaType};base64,${content}` `` — the inline-data
reference built by `extractResources` and `findCoverImage`. -/
def mkDataUrl (mt : Option String) (c : String) : String :=
  "data:" ++ jsStr mt ++ ";base64," ++ c

/-- JavaScript whitespace trimming (`String.prototype.trim`), on the
ASCII whitespace characters. -/
def jsWhitespace (c : Char) : Bool :=
  c = ' ' || c = '\t' || c = '\n' || c = '\r' || c = '\x0b' || c = '\x0c'

/-- `s.trim()`. -/
def jsTrim (s : String) : String :=
  String.mk (((s.data.dropWhile jsWhitespace).reverse.dropWhile jsWhitespace).reverse)

/-- Substring containment, `s.includes(sub)`. -/
def listIncludes (needle : List Char) : List Char → Bool
  | [] => needle.isPrefixOf []
  | c :: cs => needle.isPrefixOf (c :: cs) || listIncludes needle cs

/-- `s.includes(sub)`. -/
def strIncludes (s sub : String) : Bool := listIncludes sub.data s.data

/-- `s.startsWith(pre)`. -/
def jsStartsWith (s pre : String) : Bool := pre.data.isPrefixOf s.data

/-- First occurrence replacement, `s.replace(pat, rep)` with a string
pattern (JavaScript replaces only the first occurrence). -/
def replaceFirstAux (pat rep : List Char) : List Char → List Char
  | [] => []
  | c :: cs =>
    if pat.isPrefixOf (c :: cs) then rep ++ (c :: cs).drop pat.length
    else c :: replaceFirstAux pat rep cs

/-- `s.replace(pat, rep)` (string pattern: first occurrence only). -/
def jsReplaceFirst (s pat rep : String) : String :=
  String.mk (replaceFirstAux pat.data rep.data s.data)

/-- `s.split(sep)` on a single-character separator. -/
def splitOnCharAux (sep : Char) : List Char → List (List Char)
  | [] => [[]]
  | c :: cs =>
    match splitOnCharAux sep cs with
    | [] => [[]]
    | h :: t => if c = sep then [] :: h :: t else (c :: h) :: t

/-- `s.split(sep)`. -/
def jsSplit (s : String) (sep : Char) : List String :=
  (splitOnCharAux sep s.data).map String.mk

/-- `opfPath.substring(0, opfPath.lastIndexOf("/") + 1)`: the prefix up
to and including the last slash, empty when there is no slash. -/
def dirOfAux : List Char → List Char
  | [] => []
  | c :: cs =>
    if cs.contains '/' then c :: dirOfAux cs
    else if c = '/' then ['/'] else []

/-- The directory part of the package-document path. -/
def dirOf (s : String) : String := String.mk (dirOfAux s.data)

/-- The body of `findOpfPath`'s `try` block up to the point where a
document is available: read `META-INF/container.xml` and parse it. -/
def containerResult (px : Px) (z : Archive) : Except EpubError XDoc :=
  match getFileContent z "META-INF/container.xml" with
  | .error e => .error e
  | .ok c => parseXml px c

/-- `findOpfPath`: any failure while reading or parsing the container
descriptor is caught and rethrown as the container error; the
`full-path` attribute of the first `rootfile` element is taken with a
`|| ""` fallback (so a missing element or attribute yields the empty
path, with no error at this stage). -/
def findOpfPath (px : Px) (z : Archive) : Except EpubError (String × String) :=
  match containerResult px z with
  | .error _ => .error .containerError
  | .ok doc =>
    let opfPath :=
      (((doc.find? (fun n => n.localName == "rootfile")).bind
          (fun n => getAttribute n "full-path")).getD "")
    .ok (opfPath, dirOf opfPath)

/-- The elements matched by the scope `metadata ` of the CSS selectors in
`extractMetadata`: descendants of a `metadata` element, in document
order. -/
def metaScope (doc : XDoc) : XDoc :=
  doc.filter (fun n => n.ancestors.contains "metadata")

/-- `opfDoc.querySelector("metadata [name=...]")`. -/
def metaByName (doc : XDoc) (name : String) : Option XNode :=
  (metaScope doc).find? (fun n => getAttribute n "name" == some name)

/-- `opfDoc.querySelector("metadata [property=...]")`. -/
def metaByProperty (doc : XDoc) (name : String) : Option XNode :=
  (metaScope doc).find? (fun n => getAttribute n "property" == some name)

/-- The Dublin-Core scan: for a `dc:`-prefixed field name, the first
element under `metadata` whose local name, tag name, or prefixed tag
name matches. -/
def metaDcScan (doc : XDoc) (name : String) : Option XNode :=
  if jsStartsWith name "dc:" then
    let localName := jsReplaceFirst name "dc:" ""
    (metaScope doc).find? (fun el =>
      el.localName == localName || el.tagName == localName || el.tagName == name)
  else none

/-- The final fallback `opfDoc.querySelector("metadata localName")`: a
CSS type selector matches the local name of an element in any
namespace. -/
def metaByTag (doc : XDoc) (name : String) : Option XNode :=
  let localName := if strIncludes name ":" then ((jsSplit name ':').get? 1).getD "" else name
  (metaScope doc).find? (fun n => n.localName == localName)

/-- `getMetaContent`: the strategies are tried in order until one yields
an element; the result is that element's trimmed text content (with
`|| ""` turning a missing element into the empty string). -/
def getMetaContent (doc : XDoc) (name : String) : String :=
  let element :=
    match metaByName doc name with
    | some e => some e
    | none =>
      match metaByProperty doc name with
      | some e => some e
      | none =>
        match metaDcScan doc name with
        | some e => some e
        | none => metaByTag doc name
  match element with
  | some e => jsTrim e.textContent
  | none => ""

/-- The metadata record.  The three trailing fields are declared optional
in the TypeScript interface but `extractMetadata` always assigns them a
string (possibly empty). -/
structure EpubMetadata where
  title : String
  author : String
  language : String
  identifier : String
  description : String
  publisher : String
  date : String
deriving DecidableEq

/-- `extractMetadata` with its `||`-chained per-field fallbacks and
defaults. -/
def extractMetadata (doc : XDoc) : EpubMetadata :=
  { title := jsOr (getMetaContent doc "dc:title") (jsOr (getMetaContent doc "title") "Unknown Title")
    author := jsOr (getMetaContent doc "dc:creator") (jsOr (getMetaContent doc "creator") "Unknown Author")
    language := jsOr (getMetaContent doc "dc:language") (jsOr (getMetaContent doc "language") "en")
    identifier := jsOr (getMetaContent doc "dc:identifier") (jsOr (getMetaContent doc "identifier") "")
    description := jsOr (getMetaContent doc "dc:description") (getMetaContent doc "description")
    publisher := jsOr (getMetaContent doc "dc:publisher") (getMetaContent doc "publisher")
    date := jsOr (getMetaContent doc "dc:date") (getMetaContent doc "date") }

/-- A manifest entry: `href` is the raw attribute prefixed with the
package-document directory (plain concatenation); `mediaType` and
`properties` are raw attribute reads and may be `null`. -/
structure ManifestItem where
  href : String
  mediaType : Option String
  properties : Option String
deriving DecidableEq

/-- The manifest, a JavaScript `Map` keyed by item id. -/
abbrev Manifest := List (String × ManifestItem)

/-- `map.get(key)`. -/
def mapGet {α : Type} (m : List (String × α)) (k : String) : Option α :=
  (m.find? (fun p => p.1 == k)).map (fun p => p.2)

/-- `map.set(key, value)`: replaces the value in place when the key is
present, otherwise appends (JavaScript `Map` keeps the original
insertion position on overwrite). -/
def mapSet {α : Type} (m : List (String × α)) (k : String) (v : α) : List (String × α) :=
  if m.any (fun p => p.1 == k) then
    m.map (fun p => if p.1 == k then (k, v) else p)
  else m ++ [(k, v)]

/-- `opfDoc.querySelectorAll("manifest item")`, in document order. -/
def manifestItemNodes (doc : XDoc) : XDoc :=
  (doc.filter (fun n => n.ancestors.contains "manifest")).filter
    (fun n => n.localName == "item")

/-- `extractManifest`: registers an entry for every item carrying a
truthy `id` and `href` (missing or empty attributes skip the item). -/
def extractManifest (opfDir : String) (doc : XDoc) : Manifest :=
  (manifestItemNodes doc).foldl
    (fun m it =>
      match truthyAttr it "id", truthyAttr it "href" with
      | some id, some href =>
        mapSet m id
          { href := opfDir ++ href
            mediaType := getAttribute it "media-type"
            properties := getAttribute it "properties" }
      | some _, none => m
      | none, _ => m)
    []

/-- `extractSpine`: the truthy `idref`s of all `spine itemref` elements,
in document order. -/
def extractSpine (doc : XDoc) : List String :=
  ((doc.filter (fun n => n.ancestors.contains "spine")).filter
      (fun n => n.localName == "itemref")).filterMap
    (fun n => truthyAttr n "idref")

/-- One chapter of the parsed book. -/
structure EpubChapter where
  id : String
  title : String
  href : String
  content : String
  order : Nat
deriving DecidableEq

/-- The chapter-title derivation:
`doc.querySelector("h1, h2, h3, title")` returns the first element in
document order matching any of the four selectors, and its trimmed text
falls back to `Chapter N` (`N` the 1-based spine position) when the
element is absent or its trimmed text is empty. -/
def derivedTitle (doc : XDoc) (n : Nat) : String :=
  match doc.find? (fun e =>
      e.localName == "h1" || e.localName == "h2" || e.localName == "h3" ||
        e.localName == "title") with
  | some e => jsOr (jsTrim e.textContent) ("Chapter " ++ Nat.repr n)
  | none => "Chapter " ++ Nat.repr n

/-- The chapter-content extraction: the body's inner markup, falling
back to the whole raw text when the body element is absent or its inner
markup is empty (`bodyElement?.innerHTML || content`). -/
def derivedContent (doc : XDoc) (content : String) : String :=
  match doc.find? (fun n => n.localName == "body") with
  | some b => jsOr b.innerHTML content
  | none => content

/-- Reading and parsing one chapter document (the two awaited steps
inside `extractChapters`'s `try` block). -/
def chapterDocResult (px : Px) (z : Archive) (href : String) : Except EpubError XDoc :=
  match getFileContent z href with
  | .error e => .error e
  | .ok c => parseXml px c

/-- The body of `extractChapters`'s loop for spine index `i`: `none`
models both the media-type / missing-manifest-entry skip and the
caught per-chapter failure. -/
def extractChapterAt (px : Px) (z : Archive) (manifest : Manifest)
    (id : String) (i : Nat) : Option EpubChapter :=
  match mapGet manifest id with
  | none => none
  | some item =>
    if item.mediaType = some "application/xhtml+xml" then
      match getFileContent z item.href with
      | .error _ => none
      | .ok content =>
        match parseXml px content with
        | .error _ => none
        | .ok doc =>
          some { id := id
                 title := derivedTitle doc (i + 1)
                 href := item.href
                 content := derivedContent doc content
                 order := i }
    else none

/-- The spine loop of `extractChapters`, carrying the loop index. -/
def extractChaptersAux (px : Px) (z : Archive) (manifest : Manifest) :
    List String → Nat → List EpubChapter
  | [], _ => []
  | id :: rest, i =>
    match extractChapterAt px z manifest id i with
    | some c => c :: extractChaptersAux px z manifest rest (i + 1)
    | none => extractChaptersAux px z manifest rest (i + 1)

/-- `extractChapters(spine, manifest)`. -/
def extractChapters (px : Px) (z : Archive) (spine : List String)
    (manifest : Manifest) : List EpubChapter :=
  extractChaptersAux px z manifest spine 0

/-- The media-type filter of `extractResources`:
`item.mediaType?.startsWith("image/") || item.mediaType === "text/css" ||
item.mediaType?.startsWith("audio/")` (a `null` media type never
qualifies). -/
def qualifies : Option String → Bool
  | some m => jsStartsWith m "image/" || m == "text/css" || jsStartsWith m "audio/"
  | none => false

/-- The loop body of `extractResources` for one manifest entry: a
missing entry (`zip.file` returning `null`) or a rejected base64 read is
absorbed and the resource skipped. -/
def resourceStep (z : Archive) (res : List (String × String))
    (entry : String × ManifestItem) : List (String × String) :=
  let item := entry.2
  if qualifies item.mediaType then
    match zipFile z item.href with
    | some f =>
      match f.b64 with
      | some content => mapSet res item.href (mkDataUrl item.mediaType content)
      | none => res
    | none => res
  else res

/-- `extractResources`: iterates the whole manifest in insertion order. -/
def extractResources (z : Archive) (manifest : Manifest) : List (String × String) :=
  manifest.foldl (resourceStep z) []

/-- The cover-detection condition of `findCoverImage`:
`item.properties?.includes("cover-image") || id === "cover" ||
id === "cover-image"` — note that `includes` is substring containment,
and that the media type is never consulted. -/
def coverMatches (id : String) (item : ManifestItem) : Bool :=
  (match item.properties with
   | some p => strIncludes p "cover-image"
   | none => false)
  || id == "cover" || id == "cover-image"

/-- `findCoverImage`: scans the manifest in insertion order and returns
the inline data reference of the first matching item whose entry loads;
a missing entry or a rejected read merely continues the scan. -/
def findCoverImage (z : Archive) : Manifest → Option String
  | [] => none
  | (id, item) :: rest =>
    if coverMatches id item then
      match b64Of z item.href with
      | some content => some (mkDataUrl item.mediaType content)
      | none => findCoverImage z rest
    else findCoverImage z rest

/-- The parsed book. -/
structure EpubBook where
  metadata : EpubMetadata
  chapters : List EpubChapter
  resources : List (String × String)
  coverImage : Option String
deriving DecidableEq

/-- `parseEpub`: container resolution, package-document read and parse
(all fatal on failure), then the four total extraction stages. -/
def parseEpub (px : Px) (z : Archive) : Except EpubError EpubBook :=
  match findOpfPath px z with
  | .error e => .error e
  | .ok (opfPath, opfDir) =>
    match getFileContent z opfPath with
    | .error e => .error e
    | .ok opfContent =>
      match parseXml px opfContent with
      | .error e => .error e
      | .ok opfDoc =>
        let manifest := extractManifest opfDir opfDoc
        let spine := extractSpine opfDoc
        .ok { metadata := extractMetadata opfDoc
              chapters := extractChapters px z spine manifest
              resources := extractResources z manifest
              coverImage := findCoverImage z manifest }

/-- The fatal prefix of `parseEpub` (container resolution plus package
document read and parse), returning the package directory and parsed
package document. -/
def parsedPackage (px : Px) (z : Archive) : Except EpubError (String × XDoc) :=
  match findOpfPath px z with
  | .error e => .error e
  | .ok (opfPath, opfDir) =>
    match getFileContent z opfPath with
    | .error e => .error e
    | .ok opfContent =>
      match parseXml px opfContent with
      | .error e => .error e
      | .ok opfDoc => .ok (opfDir, opfDoc)

/-! ### The Content Rewriter (`processContent` in `reading-interface.tsx`)

The rewriter builds regular expressions by splicing a resource's file
basename into fixed pattern skeletons and runs global, case-insensitive
replacement.  The matchers below implement exactly those skeletons over
character lists.  Within the spliced basename a `.` is a regex
metacharacter matching any character except a line terminator (the
basenames occurring in EPUB manifests contain no other regex
metacharacters).  Replacement follows JavaScript `String.replace` with
the `g` flag: scan left to right over the input, matches do not
overlap, and scanning resumes after each matched span. -/

/-- The apostrophe character (the second quote alternative of the
`["']` character classes). -/
def squote : Char := Char.ofNat 39

/-- Membership in the `["']` class. -/
def isQuote (c : Char) : Bool := c = '"' || c = squote

/-- Case-insensitive character comparison (the `i` flag; ASCII simple
folding). -/
def ciEq (a b : Char) : Bool := a.toLower == b.toLower

/-- Match a literal pattern fragment case-insensitively at the head of
the input, returning the rest. -/
def matchLitCI : List Char → List Char → Option (List Char)
  | [], s => some s
  | _ :: _, [] => none
  | p :: ps, c :: cs => if ciEq p c then matchLitCI ps cs else none

/-- Does the spliced-basename fragment (`.` = any non-line-terminator)
match a prefix of the input (case-insensitively)? -/
def matchPatCI : List Char → List Char → Bool
  | [], _ => true
  | _ :: _, [] => false
  | p :: ps, c :: cs =>
    (if p = '.' then !(c = '\n' || c = '\r') else ciEq p c) && matchPatCI ps cs

/-- Does the fragment match anywhere inside the input?  This decides
whether a candidate `[^"']*FN[^"']*` span contains the basename. -/
def containsPatCI (pat : List Char) : List Char → Bool
  | [] => matchPatCI pat []
  | c :: cs => matchPatCI pat (c :: cs) || containsPatCI pat cs

/-- Match `src=["']([^"']*FN[^"']*)["']` at the head of the input.  The
quoted span is forced: the star classes exclude both quote characters,
so the candidate value is the maximal quote-free run after the opening
quote, and the match succeeds iff the next character is a quote and the
run contains the basename fragment.  Returns the captured value and the
rest of the input after the closing quote. -/
def matchSrcAt (fn : List Char) (s : List Char) : Option (List Char × List Char) :=
  match matchLitCI ['s', 'r', 'c', '='] s with
  | none => none
  | some s1 =>
    match s1 with
    | [] => none
    | q :: s2 =>
      if isQuote q then
        let w := s2.takeWhile (fun c => !(isQuote c))
        match s2.drop w.length with
        | q2 :: s4 =>
          if isQuote q2 && containsPatCI fn w then some (w, s4) else none
        | [] => none
      else none

/-- Global replacement for `src=["']([^"']*FN[^"']*)["']` with the fixed
replacement `src="dataUrl"`.  The fuel starts at one more than the input
length; every step consumes at least one character, so it never runs
out. -/
def replaceSrcGo (fn repl : List Char) : Nat → List Char → List Char
  | 0, s => s
  | _ + 1, [] => []
  | fuel + 1, c :: cs =>
    match matchSrcAt fn (c :: cs) with
    | some (_, rest) => repl ++ replaceSrcGo fn repl fuel rest
    | none => c :: replaceSrcGo fn repl fuel cs

/-- `content.replace(new RegExp("src=[\"']([^\"']*FN[^\"']*)[\"']", "gi"),
"src=\"dataUrl\"")`. -/
def replaceSrcAll (fn : List Char) (dataUrl : String) (s : List Char) : List Char :=
  replaceSrcGo fn ("src=\"" ++ dataUrl ++ "\"").data (s.length + 1) s

/-- Matching `src=["']...["']([^>]*?)>` at the head of the input: the
`src` part as in `matchSrcAt`, then the lazy `([^>]*?)` group, which is
the run up to the first `>` (which must exist).  Returns the third
capture group and the rest after the `>`. -/
def trySrcHere (fn : List Char) (s : List Char) : Option (List Char × List Char) :=
  match matchSrcAt fn s with
  | some (_, r) =>
    let g3 := r.takeWhile (fun c => !(c = '>'))
    match r.drop g3.length with
    | _ :: s5 => some (g3, s5)
    | [] => none
  | none => none

/-- The lazy first group `([^>]*?)` followed by the `src=...>` tail: try
the tail at each position, extending the group one non-`>` character at
a time, exactly as the backtracking regex engine would.  Returns the
first and third capture groups and the rest of the input. -/
def matchTagSrcTail (fn : List Char) : List Char → Option (List Char × List Char × List Char)
  | [] => (trySrcHere fn []).map (fun t => ([], t.1, t.2))
  | c :: cs =>
    match trySrcHere fn (c :: cs) with
    | some (g3, rest) => some ([], g3, rest)
    | none =>
      if c = '>' then none
      else (matchTagSrcTail fn cs).map (fun t => (c :: t.1, t.2.1, t.2.2))

/-- Match `<audio([^>]*?)src=["']([^"']*FN[^"']*)["']([^>]*?)>` at the
head of the input. -/
def matchAudioAt (fn : List Char) (s : List Char) :
    Option (List Char × List Char × List Char) :=
  match matchLitCI "<audio".data s with
  | some s1 => matchTagSrcTail fn s1
  | none => none

/-- The replacement
`<audio$1src="dataUrl"$3 controls preload="metadata" style="width: 100%; max-width: 400px; margin: 1rem 0;">`. -/
def audioRepl (dataUrl : String) (g1 g3 : List Char) : List Char :=
  "<audio".data ++ g1 ++ ("src=\"" ++ dataUrl ++ "\"").data ++ g3 ++
    " controls preload=\"metadata\" style=\"width: 100%; max-width: 400px; margin: 1rem 0;\">".data

/-- Global replacement for the `<audio ... src=...>` pattern. -/
def replaceAudioGo (fn : List Char) (dataUrl : String) : Nat → List Char → List Char
  | 0, s => s
  | _ + 1, [] => []
  | fuel + 1, c :: cs =>
    match matchAudioAt fn (c :: cs) with
    | some (g1, g3, rest) => audioRepl dataUrl g1 g3 ++ replaceAudioGo fn dataUrl fuel rest
    | none => c :: replaceAudioGo fn dataUrl fuel cs

/-- The audio-source rewrite pass. -/
def replaceAudioAll (fn : List Char) (dataUrl : String) (s : List Char) : List Char :=
  replaceAudioGo fn dataUrl (s.length + 1) s

/-- Match `<source([^>]*?)src=["']([^"']*FN[^"']*)["']([^>]*?)>` at the
head of the input. -/
def matchSourceAt (fn : List Char) (s : List Char) :
    Option (List Char × List Char × List Char) :=
  match matchLitCI "<source".data s with
  | some s1 => matchTagSrcTail fn s1
  | none => none

/-- The replacement `<source$1src="dataUrl"$3>`. -/
def sourceRepl (dataUrl : String) (g1 g3 : List Char) : List Char :=
  "<source".data ++ g1 ++ ("src=\"" ++ dataUrl ++ "\"").data ++ g3 ++ ['>']

/-- Global replacement for the `<source ... src=...>` pattern. -/
def replaceSourceGo (fn : List Char) (dataUrl : String) : Nat → List Char → List Char
  | 0, s => s
  | _ + 1, [] => []
  | fuel + 1, c :: cs =>
    match matchSourceAt fn (c :: cs) with
    | some (g1, g3, rest) => sourceRepl dataUrl g1 g3 ++ replaceSourceGo fn dataUrl fuel rest
    | none => c :: replaceSourceGo fn dataUrl fuel cs

/-- The nested-source rewrite pass. -/
def replaceSourceAll (fn : List Char) (dataUrl : String) (s : List Char) : List Char :=
  replaceSourceGo fn dataUrl (s.length + 1) s

/-- Match `<audio(?![^>]*controls)([^>]*?)>` at the head of the input.
The negative lookahead `[^>]*controls` succeeds exactly when the run
before the first `>` contains `controls`; the lazy group is that run,
and the `>` must exist. -/
def matchAudioCtrlAt (s : List Char) : Option (List Char × List Char) :=
  match matchLitCI "<audio".data s with
  | some s1 =>
    let pre := s1.takeWhile (fun c => !(c = '>'))
    if containsPatCI "controls".data pre then none
    else
      match s1.drop pre.length with
      | _ :: s5 => some (pre, s5)
      | [] => none
  | none => none

/-- The replacement
`<audio$1 controls preload="metadata" style="width: 100%; max-width: 400px; margin: 1rem 0;">`. -/
def ctrlRepl (g1 : List Char) : List Char :=
  "<audio".data ++ g1 ++
    " controls preload=\"metadata\" style=\"width: 100%; max-width: 400px; margin: 1rem 0;\">".data

/-- Global replacement for the final controls-normalization pass. -/
def replaceAudioCtrlGo : Nat → List Char → List Char
  | 0, s => s
  | _ + 1, [] => []
  | fuel + 1, c :: cs =>
    match matchAudioCtrlAt (c :: cs) with
    | some (g1, rest) => ctrlRepl g1 ++ replaceAudioCtrlGo fuel rest
    | none => c :: replaceAudioCtrlGo fuel cs

/-- The controls-normalization pass. -/
def replaceAudioCtrlAll (s : List Char) : List Char :=
  replaceAudioCtrlGo (s.length + 1) s

/-- `href.split("/").pop() || href`: the final path segment, falling
back to the whole path when that segment is empty. -/
def fileNameOf (href : String) : String :=
  let last := ((jsSplit href '/').getLast?).getD ""
  if last = "" then href else last

/-- The per-resource body of `processContent`'s `forEach`: the generic
`src` rewrite, then (for audio data references) the `<audio>` and
`<source>` rewrites. -/
def processResourceStep (acc : List Char) (href dataUrl : String) : List Char :=
  let fn := (fileNameOf href).data
  let c1 := replaceSrcAll fn dataUrl acc
  if jsStartsWith dataUrl "data:audio/" then
    replaceSourceAll fn dataUrl (replaceAudioAll fn dataUrl c1)
  else c1

/-- `processContent(content)` with the book's `resources` map explicit:
one pass per resource in map-insertion order, then the final audio
controls normalization. -/
def processContent (resources : List (String × String)) (content : String) : String :=
  String.mk
    (replaceAudioCtrlAll
      (resources.foldl (fun acc p => processResourceStep acc p.1 p.2) content.data))

/-! ### Spec-side definitions

These follow the wording of spec claims (not the source); they exist
only to be compared against the source-derived definitions above. -/

/-- The space-separated token list of a `properties` attribute (the
spec speaks of the "properties token list"). -/
def tokenList (s : String) : List String := jsSplit s ' '

/-- Modelled from the claim wording of C5: cover matching by token-list
containment of the marker, or one of the two reserved ids. -/
def specCoverMatchesByClaim (id : String) (item : ManifestItem) : Bool :=
  (match item.properties with
   | some p => (tokenList p).contains "cover-image"
   | none => false)
  || id == "cover" || id == "cover-image"

/-- Modelled from the claim wording of C5: select the first matching
item; return no cover when none match or when that selected first
match's entry fails to load. -/
def specFindCoverByClaim (z : Archive) (m : Manifest) : Option String :=
  match m.find? (fun e => specCoverMatchesByClaim e.1 e.2) with
  | some e => (b64Of z e.2.href).map (mkDataUrl e.2.mediaType)
  | none => none

/-- Modelled from the claim wording of C6: title candidates in priority
order level-1, level-2, level-3 heading, then the title element, taking
the first candidate with non-empty trimmed text, else `Chapter N`. -/
def specTitleByClaim (doc : XDoc) (n : Nat) : String :=
  jsOr (match doc.find? (fun e => e.localName == "h1") with
        | some e => jsTrim e.textContent
        | none => "")
    (jsOr (match doc.find? (fun e => e.localName == "h2") with
           | some e => jsTrim e.textContent
           | none => "")
      (jsOr (match doc.find? (fun e => e.localName == "h3") with
             | some e => jsTrim e.textContent
             | none => "")
        (jsOr (match doc.find? (fun e => e.localName == "title") with
               | some e => jsTrim e.textContent
               | none => "")
          ("Chapter " ++ Nat.repr n))))

/-- Modelled from the claim wording of C7: the first metadata strategy
yielding non-empty trimmed text wins (an earlier strategy whose element
has empty text does not block later strategies). -/
def specMetaFirstNonEmpty (doc : XDoc) (name : String) : String :=
  jsOr (match metaByName doc name with
        | some e => jsTrim e.textContent
        | none => "")
    (jsOr (match metaByProperty doc name with
           | some e => jsTrim e.textContent
           | none => "")
      (jsOr (match metaDcScan doc name with
             | some e => jsTrim e.textContent
             | none => "")
        (match metaByTag doc name with
         | some e => jsTrim e.textContent
         | none => "")))

/-- Modelled from the claim wording of C7: the book title under the
first-non-empty rule, with the same field-level fallback and default
as the source. -/
def specTitleFieldByClaim (doc : XDoc) : String :=
  jsOr (specMetaFirstNonEmpty doc "dc:title")
    (jsOr (specMetaFirstNonEmpty doc "title") "Unknown Title")

/-! ### Concrete fixtures

Concrete archives and parse tables used by witnesses and
counterexamples.  The parse tables model `DOMParser` on the handful of
content strings the fixtures contain. -/

/-- A table-driven parse environment. -/
def pxOf (t : List (String × XDoc)) : Px := fun s =>
  (t.find? (fun p => p.1 == s)).map (fun p => p.2)

/-- A well-formed container descriptor pointing at `OEBPS/content.opf`. -/
def containerDocB : XDoc :=
  [⟨"container", "container", [], "", "", []⟩,
   ⟨"rootfile", "rootfile", [("full-path", "OEBPS/content.opf")], "", "", ["container"]⟩]

/-- A package document: two Dublin-Core metadata fields, three spine
chapters, an image flagged as cover, a stylesheet and a second image. -/
def opfDocB : XDoc :=
  [⟨"package", "package", [], "", "", []⟩,
   ⟨"metadata", "metadata", [], "", "", ["package"]⟩,
   ⟨"dc:title", "title", [], "My Book", "", ["package", "metadata"]⟩,
   ⟨"dc:creator", "creator", [], "Jane Doe", "", ["package", "metadata"]⟩,
   ⟨"manifest", "manifest", [], "", "", ["package"]⟩,
   ⟨"item", "item", [("id", "ch1"), ("href", "c1.xhtml"), ("media-type", "application/xhtml+xml")], "", "", ["package", "manifest"]⟩,
   ⟨"item", "item", [("id", "ch2"), ("href", "c2.xhtml"), ("media-type", "application/xhtml+xml")], "", "", ["package", "manifest"]⟩,
   ⟨"item", "item", [("id", "ch3"), ("href", "c3.xhtml"), ("media-type", "application/xhtml+xml")], "", "", ["package", "manifest"]⟩,
   ⟨"item", "item", [("id", "img1"), ("href", "img1.png"), ("media-type", "image/png"), ("properties", "cover-image")], "", "", ["package", "manifest"]⟩,
   ⟨"item", "item", [("id", "css1"), ("href", "style.css"), ("media-type", "text/css")], "", "", ["package", "manifest"]⟩,
   ⟨"item", "item", [("id", "img2"), ("href", "img2.png"), ("media-type", "image/png")], "", "", ["package", "manifest"]⟩,
   ⟨"spine", "spine", [], "", "", ["package"]⟩,
   ⟨"itemref", "itemref", [("idref", "ch1")], "", "", ["package", "spine"]⟩,
   ⟨"itemref", "itemref", [("idref", "ch2")], "", "", ["package", "spine"]⟩,
   ⟨"itemref", "itemref", [("idref", "ch3")], "", "", ["package", "spine"]⟩]

/-- The first chapter document. -/
def c1DocB : XDoc :=
  [⟨"html", "html", [], "One", "", []⟩,
   ⟨"body", "body", [], "One", "<h1>One</h1>", ["html"]⟩,
   ⟨"h1", "h1", [], "One", "One", ["html", "body"]⟩]

/-- The third chapter document. -/
def c3DocB : XDoc :=
  [⟨"html", "html", [], "Three", "", []⟩,
   ⟨"body", "body", [], "Three", "<h1>Three</h1>", ["html"]⟩,
   ⟨"h1", "h1", [], "Three", "Three", ["html", "body"]⟩]

/-- The parse table for the main fixture. -/
def pxBook : Px :=
  pxOf [("CONTAINER", containerDocB), ("OPF", opfDocB), ("C1", c1DocB), ("C3", c3DocB)]

/-- The main fixture archive: the second spine chapter's entry and the
second image are missing, and `img1.png`'s text read would fail (only
its base64 read succeeds), exercising the per-item absorption paths. -/
def Zbook : Archive :=
  [("META-INF/container.xml", ⟨some "CONTAINER", none⟩),
   ("OEBPS/content.opf", ⟨some "OPF", none⟩),
   ("OEBPS/c1.xhtml", ⟨some "C1", none⟩),
   ("OEBPS/c3.xhtml", ⟨some "C3", none⟩),
   ("OEBPS/img1.png", ⟨none, some "QUJD"⟩),
   ("OEBPS/style.css", ⟨some "css-text", some "Q1NT"⟩)]

/-- The main fixture archive with every chapter and resource entry
removed: the parse still succeeds, with no chapters and no resources. -/
def Zempty : Archive :=
  [("META-INF/container.xml", ⟨some "CONTAINER", none⟩),
   ("OEBPS/content.opf", ⟨some "OPF", none⟩)]

/-- The book `parseEpub` produces from the main fixture. -/
def bookB : EpubBook :=
  { metadata := ⟨"My Book", "Jane Doe", "en", "", "", "", ""⟩
    chapters :=
      [⟨"ch1", "One", "OEBPS/c1.xhtml", "<h1>One</h1>", 0⟩,
       ⟨"ch3", "Three", "OEBPS/c3.xhtml", "<h1>Three</h1>", 2⟩]
    resources :=
      [("OEBPS/img1.png", "data:image/png;base64,QUJD"),
       ("OEBPS/style.css", "data:text/css;base64,Q1NT")]
    coverImage := some "data:image/png;base64,QUJD" }

/-- A container descriptor whose `rootfile` element lacks the
`full-path` attribute. -/
def containerDocNoPath : XDoc :=
  [⟨"container", "container", [], "", "", []⟩,
   ⟨"rootfile", "rootfile", [], "", "", ["container"]⟩]

/-- Parse table for the missing-`full-path` fixture. -/
def px1 : Px := pxOf [("CONT1", containerDocNoPath)]

/-- An archive whose container descriptor is present and well-formed but
whose root-file descriptor lacks the `full-path` attribute. -/
def z1 : Archive := [("META-INF/container.xml", ⟨some "CONT1", none⟩)]

/-- A manifest whose single item's `properties` contains the cover
marker only as a proper substring (`"xcover-imagey"`), under a
non-reserved id. -/
def m5 : Manifest := [("itemA", ⟨"a.png", some "image/png", some "xcover-imagey"⟩)]

/-- The archive for the substring-cover fixture: the image loads. -/
def z5 : Archive := [("a.png", ⟨none, some "QUJD"⟩)]

/-- Two cover candidates: the first (properties-flagged) item's entry is
missing from the archive, the second (reserved id) loads. -/
def m5w : Manifest :=
  [("a", ⟨"a.png", some "image/png", some "cover-image"⟩),
   ("cover", ⟨"b.png", some "image/png", none⟩)]

/-- The archive for the two-candidate cover fixture. -/
def z5w : Archive := [("b.png", ⟨none, some "QkJC"⟩)]

/-- A chapter document whose `title` element precedes its `h1` in
document order, both with non-empty text. -/
def chapterDoc6 : XDoc :=
  [⟨"html", "html", [], "T H", "", []⟩,
   ⟨"head", "head", [], "T", "", ["html"]⟩,
   ⟨"title", "title", [], "T", "", ["html", "head"]⟩,
   ⟨"body", "body", [], "H", "<h1>H</h1>", ["html"]⟩,
   ⟨"h1", "h1", [], "H", "H", ["html", "body"]⟩]

/-- Manifest for the title-order fixture. -/
def manifest6 : Manifest := [("ch1", ⟨"c1.xhtml", some "application/xhtml+xml", none⟩)]

/-- Archive for the title-order fixture. -/
def z6 : Archive := [("c1.xhtml", ⟨some "C6", none⟩)]

/-- Parse table for the title-order fixture. -/
def px6 : Px := pxOf [("C6", chapterDoc6)]

/-- The chapter the extractor produces from the title-order fixture. -/
def chapterC6 : EpubChapter := ⟨"ch1", "T", "c1.xhtml", "<h1>H</h1>", 0⟩

/-- A package document carrying both a `name`-attribute `dc:title`
element with blank text and a `property`-attribute `dc:title` element
with non-empty text. -/
def doc7 : XDoc :=
  [⟨"package", "package", [], "", "", []⟩,
   ⟨"metadata", "metadata", [], "", "", ["package"]⟩,
   ⟨"meta", "meta", [("name", "dc:title")], "   ", "", ["package", "metadata"]⟩,
   ⟨"meta", "meta", [("property", "dc:title")], "PropTitle", "", ["package", "metadata"]⟩]

/-- The `name`-attribute element of `doc7` (blank text). -/
def meta7name : XNode :=
  ⟨"meta", "meta", [("name", "dc:title")], "   ", "", ["package", "metadata"]⟩

/-- A package document whose spine references the same manifest id
twice. -/
def opfDoc9 : XDoc :=
  [⟨"package", "package", [], "", "", []⟩,
   ⟨"manifest", "manifest", [], "", "", ["package"]⟩,
   ⟨"item", "item", [("id", "ch1"), ("href", "c1.xhtml"), ("media-type", "application/xhtml+xml")], "", "", ["package", "manifest"]⟩,
   ⟨"spine", "spine", [], "", "", ["package"]⟩,
   ⟨"itemref", "itemref", [("idref", "ch1")], "", "", ["package", "spine"]⟩,
   ⟨"itemref", "itemref", [("idref", "ch1")], "", "", ["package", "spine"]⟩]

/-- Parse table for the duplicate-spine fixture. -/
def px9 : Px := pxOf [("CONTAINER", containerDocB), ("OPF9", opfDoc9), ("C1", c1DocB)]

/-- Archive for the duplicate-spine fixture. -/
def z9 : Archive :=
  [("META-INF/container.xml", ⟨some "CONTAINER", none⟩),
   ("OEBPS/content.opf", ⟨some "OPF9", none⟩),
   ("OEBPS/c1.xhtml", ⟨some "C1", none⟩)]

/-- A cover candidate with no `media-type` attribute (non-image
payload). -/
def mX : Manifest := [("cover", ⟨"x.bin", none, none⟩)]

/-- Archive for the absent-media-type cover fixture. -/
def zX : Archive := [("x.bin", ⟨none, some "QUJD"⟩)]

/-! ### General lemmas about the parser -/

/-- Whether one spine entry's content document loads and parses. -/
def chapterLoads (px : Px) (z : Archive) (href : String) : Bool :=
  match chapterDocResult px z href with
  | .ok _ => true
  | .error _ => false

/-- The survival condition for a spine entry: a manifest entry exists,
its media type is exactly the XHTML content type, and its content
loads and parses. -/
def spineEntryGood (px : Px) (z : Archive) (manifest : Manifest) (id : String) : Bool :=
  match mapGet manifest id with
  | some item =>
    (item.mediaType == some "application/xhtml+xml") && chapterLoads px z item.href
  | none => false

theorem parsedPackage_spec (px : Px) (z : Archive) (d : String) (doc : XDoc)
    (hp : parsedPackage px z = .ok (d, doc)) :
    parseEpub px z = .ok
      { metadata := extractMetadata doc
        chapters := extractChapters px z (extractSpine doc) (extractManifest d doc)
        resources := extractResources z (extractManifest d doc)
        coverImage := findCoverImage z (extractManifest d doc) } := by
  unfold parsedPackage at hp
  unfold parseEpub
  cases h1 : findOpfPath px z with
  | error e => simp [h1] at hp
  | ok pd =>
    obtain ⟨p, dir⟩ := pd
    simp only [h1] at hp ⊢
    cases h2 : getFileContent z p with
    | error e => simp [h2] at hp
    | ok c =>
      simp only [h2] at hp ⊢
      cases h3 : parseXml px c with
      | error e => simp [h3] at hp
      | ok doc2 =>
        simp only [h3] at hp ⊢
        simp only [Except.ok.injEq, Prod.mk.injEq] at hp
        obtain ⟨rfl, rfl⟩ := hp
        rfl

theorem extractChapterAt_eq_some {px : Px} {z : Archive} {manifest : Manifest}
    {id : String} {i : Nat} {c : EpubChapter}
    (h : extractChapterAt px z manifest id i = some c) :
    ∃ item content doc,
      mapGet manifest id = some item ∧
      item.mediaType = some "application/xhtml+xml" ∧
      getFileContent z item.href = .ok content ∧
      parseXml px content = .ok doc ∧
      c = { id := id, title := derivedTitle doc (i + 1), href := item.href,
            content := derivedContent doc content, order := i } := by
  unfold extractChapterAt at h
  cases hm : mapGet manifest id with
  | none => simp only [hm] at h; exact Option.noConfusion h
  | some item =>
    simp only [hm] at h
    by_cases ht : item.mediaType = some "application/xhtml+xml"
    · rw [if_pos ht] at h
      cases hf : getFileContent z item.href with
      | error e => simp only [hf] at h; exact Option.noConfusion h
      | ok content =>
        simp only [hf] at h
        cases hx : parseXml px content with
        | error e => simp only [hx] at h; exact Option.noConfusion h
        | ok doc =>
          simp only [hx, Option.some.injEq] at h
          exact ⟨item, content, doc, rfl, ht, hf, hx, h.symm⟩
    · rw [if_neg ht] at h
      exact absurd h (by simp)

theorem extractChapterAt_fields {px : Px} {z : Archive} {manifest : Manifest}
    {id : String} {i : Nat} {c : EpubChapter}
    (h : extractChapterAt px z manifest id i = some c) :
    c.id = id ∧ c.order = i := by
  obtain ⟨item, content, doc, _, _, _, _, rfl⟩ := extractChapterAt_eq_some h
  exact ⟨rfl, rfl⟩

theorem extractChapterAt_isSome (px : Px) (z : Archive) (manifest : Manifest)
    (id : String) (i : Nat) :
    (extractChapterAt px z manifest id i).isSome = spineEntryGood px z manifest id := by
  unfold extractChapterAt spineEntryGood chapterLoads chapterDocResult
  cases hm : mapGet manifest id with
  | none => rfl
  | some item =>
    by_cases ht : item.mediaType = some "application/xhtml+xml"
    · have htb : (item.mediaType == some "application/xhtml+xml") = true := by
        simp [ht]
      simp only [ht, if_true, htb, Bool.true_and]
      cases hf : getFileContent z item.href with
      | error e => simp [hf]
      | ok content =>
        cases hx : parseXml px content with
        | error e => simp [hf, hx]
        | ok doc => simp [hf, hx]
    · have htb : (item.mediaType == some "application/xhtml+xml") = false := by
        simp only [beq_eq_false_iff_ne, ne_eq]
        exact ht
      simp [ht, htb]

theorem mem_extractChaptersAux {px : Px} {z : Archive} {manifest : Manifest}
    (spine : List String) :
    ∀ (k : Nat) (c : EpubChapter), c ∈ extractChaptersAux px z manifest spine k →
      ∃ j, spine.get? j = some c.id ∧ c.order = k + j := by
  induction spine with
  | nil => intro k c h; simp [extractChaptersAux] at h
  | cons id rest ih =>
    intro k c h
    unfold extractChaptersAux at h
    cases hc : extractChapterAt px z manifest id k with
    | some c0 =>
      simp only [hc] at h
      rcases List.mem_cons.mp h with h0 | h1
      · subst h0
        obtain ⟨hid, hord⟩ := extractChapterAt_fields hc
        exact ⟨0, by simp [hid], by omega⟩
      · obtain ⟨j, hj, ho⟩ := ih (k + 1) c h1
        exact ⟨j + 1, by simpa using hj, by omega⟩
    | none =>
      simp only [hc] at h
      obtain ⟨j, hj, ho⟩ := ih (k + 1) c h
      exact ⟨j + 1, by simpa using hj, by omega⟩

theorem extractChaptersAux_chain {px : Px} {z : Archive} {manifest : Manifest}
    (spine : List String) :
    ∀ k : Nat, List.Chain' (fun a b => a.order < b.order)
      (extractChaptersAux px z manifest spine k) := by
  induction spine with
  | nil => intro k; simp [extractChaptersAux]
  | cons id rest ih =>
    intro k
    unfold extractChaptersAux
    cases hc : extractChapterAt px z manifest id k with
    | none => exact ih (k + 1)
    | some c0 =>
      refine List.chain'_cons'.mpr ⟨?_, ih (k + 1)⟩
      intro b hb
      have hmem : b ∈ extractChaptersAux px z manifest rest (k + 1) :=
        List.mem_of_mem_head? hb
      obtain ⟨j, _, ho⟩ := mem_extractChaptersAux rest (k + 1) b hmem
      have hc0 : c0.order = k := (extractChapterAt_fields hc).2
      omega

theorem extractChaptersAux_length {px : Px} {z : Archive} {manifest : Manifest}
    (spine : List String) :
    ∀ k : Nat, (extractChaptersAux px z manifest spine k).length =
      spine.countP (fun id => spineEntryGood px z manifest id) := by
  induction spine with
  | nil => intro k; simp [extractChaptersAux]
  | cons id rest ih =>
    intro k
    unfold extractChaptersAux
    have hg := extractChapterAt_isSome px z manifest id k
    cases hc : extractChapterAt px z manifest id k with
    | some c =>
      have hgood : spineEntryGood px z manifest id = true := by
        rw [← hg, hc]; rfl
      simp [List.countP_cons, hgood, ih (k + 1), Nat.add_comm]
    | none =>
      have hgood : spineEntryGood px z manifest id = false := by
        rw [← hg, hc]; rfl
      simp [List.countP_cons, hgood, ih (k + 1)]

theorem extractChaptersAux_ids_sublist {px : Px} {z : Archive} {manifest : Manifest}
    (spine : List String) :
    ∀ k : Nat, ((extractChaptersAux px z manifest spine k).map (fun c => c.id)).Sublist spine := by
  induction spine with
  | nil => intro k; simp [extractChaptersAux]
  | cons id rest ih =>
    intro k
    unfold extractChaptersAux
    cases hc : extractChapterAt px z manifest id k with
    | none => exact (ih (k + 1)).cons id
    | some c =>
      have hid : c.id = id := (extractChapterAt_fields hc).1
      simp only [List.map_cons, hid]
      exact (ih (k + 1)).cons₂ id

theorem extractChaptersAux_title {px : Px} {z : Archive} {manifest : Manifest}
    (spine : List String) :
    ∀ (k : Nat) (c : EpubChapter), c ∈ extractChaptersAux px z manifest spine k →
      ∃ item doc, mapGet manifest c.id = some item ∧
        chapterDocResult px z item.href = .ok doc ∧
        c.title = derivedTitle doc (c.order + 1) := by
  induction spine with
  | nil => intro k c h; simp [extractChaptersAux] at h
  | cons id rest ih =>
    intro k c h
    unfold extractChaptersAux at h
    cases hc : extractChapterAt px z manifest id k with
    | some c0 =>
      simp only [hc] at h
      rcases List.mem_cons.mp h with h0 | h1
      · subst h0
        obtain ⟨item, content, doc, hm, _, hf, hx, rfl⟩ := extractChapterAt_eq_some hc
        refine ⟨item, doc, hm, ?_, rfl⟩
        unfold chapterDocResult
        rw [hf]
        exact hx
      · exact ih (k + 1) c h1
    | none =>
      simp only [hc] at h
      exact ih (k + 1) c h

theorem mapGet_isSome_iff {α : Type} (m : List (String × α)) (k : String) :
    (mapGet m k).isSome ↔ ∃ v, (k, v) ∈ m := by
  unfold mapGet
  rw [Option.isSome_map']
  rw [List.find?_isSome]
  constructor
  · rintro ⟨p, hp, hpk⟩
    obtain ⟨pk, pv⟩ := p
    have : pk = k := by simpa using hpk
    subst this
    exact ⟨pv, hp⟩
  · rintro ⟨v, hv⟩
    exact ⟨(k, v), hv, by simp⟩

theorem mem_mapSet {α : Type} {m : List (String × α)} {k0 k : String} {v0 : α} {v : α}
    (h : (k, v) ∈ mapSet m k0 v0) : (k = k0 ∧ v = v0) ∨ (k, v) ∈ m := by
  unfold mapSet at h
  by_cases ha : m.any (fun p => p.1 == k0) = true
  · rw [if_pos ha] at h
    obtain ⟨p, hp, hfp⟩ := List.mem_map.mp h
    by_cases hk : p.1 == k0
    · rw [if_pos hk] at hfp
      left
      exact ⟨(Prod.mk.injEq .. ▸ hfp).1.symm, (Prod.mk.injEq .. ▸ hfp).2.symm⟩
    · rw [if_neg hk] at hfp
      right
      exact hfp ▸ hp
  · rw [if_neg ha] at h
    rcases List.mem_append.mp h with hm | hs
    · exact Or.inr hm
    · left
      have : (k, v) = (k0, v0) := by simpa using hs
      exact ⟨(Prod.mk.injEq .. ▸ this).1, (Prod.mk.injEq .. ▸ this).2⟩

theorem key_mem_mapSet_self {α : Type} (m : List (String × α)) (k0 : String) (v0 : α) :
    ∃ v, (k0, v) ∈ mapSet m k0 v0 := by
  unfold mapSet
  by_cases ha : m.any (fun p => p.1 == k0) = true
  · rw [if_pos ha]
    obtain ⟨p, hp, hpk⟩ := List.any_eq_true.mp ha
    exact ⟨v0, List.mem_map.mpr ⟨p, hp, by rw [if_pos hpk]⟩⟩
  · rw [if_neg ha]
    exact ⟨v0, by simp⟩

theorem key_stable_mapSet {α : Type} {m : List (String × α)} {k : String}
    (h : ∃ v, (k, v) ∈ m) (k0 : String) (v0 : α) :
    ∃ v, (k, v) ∈ mapSet m k0 v0 := by
  obtain ⟨v, hv⟩ := h
  unfold mapSet
  by_cases ha : m.any (fun p => p.1 == k0) = true
  · rw [if_pos ha]
    by_cases hk : k = k0
    · subst hk
      exact ⟨v0, List.mem_map.mpr ⟨(k, v), hv, by simp⟩⟩
    · refine ⟨v, List.mem_map.mpr ⟨(k, v), hv, ?_⟩⟩
      have : ((k, v).1 == k0) = false := by
        simp only [beq_eq_false_iff_ne, ne_eq]
        exact hk
      rw [if_neg (by simp [this])]
  · rw [if_neg ha]
    exact ⟨v, by simp [hv]⟩

theorem keys_mapSet_nodup {α : Type} {m : List (String × α)}
    (h : (m.map Prod.fst).Nodup) (k0 : String) (v0 : α) :
    ((mapSet m k0 v0).map Prod.fst).Nodup := by
  unfold mapSet
  by_cases ha : m.any (fun p => p.1 == k0) = true
  · rw [if_pos ha]
    have hkeys : (m.map (fun p => if p.1 == k0 then (k0, v0) else p)).map Prod.fst
        = m.map Prod.fst := by
      rw [List.map_map]
      apply List.map_congr_left
      intro p _
      by_cases hk : p.1 == k0
      · simp only [Function.comp_apply, if_pos hk]
        have : p.1 = k0 := by simpa using hk
        simp [this]
      · simp only [Function.comp_apply, if_neg hk]
    rw [hkeys]
    exact h
  · rw [if_neg ha]
    rw [List.map_append]
    have hk : k0 ∉ m.map Prod.fst := by
      intro hmem
      obtain ⟨p, hp, hpk⟩ := List.mem_map.mp hmem
      exact ha (List.any_eq_true.mpr ⟨p, hp, by simp [hpk]⟩)
    simp [List.nodup_append, h, hk]

theorem step_key_sub {z : Archive} {acc : List (String × String)}
    {e : String × ManifestItem} {k : String}
    (h : ∃ v, (k, v) ∈ resourceStep z acc e) :
    (∃ v, (k, v) ∈ acc) ∨
      (e.2.href = k ∧ qualifies e.2.mediaType = true ∧ (b64Of z e.2.href).isSome) := by
  obtain ⟨v, hv⟩ := h
  unfold resourceStep at hv
  by_cases hq : qualifies e.2.mediaType = true
  · rw [if_pos hq] at hv
    cases hzf : zipFile z e.2.href with
    | none => simp only [hzf] at hv; exact Or.inl ⟨v, hv⟩
    | some f =>
      simp only [hzf] at hv
      cases hfb : f.b64 with
      | none => simp only [hfb] at hv; exact Or.inl ⟨v, hv⟩
      | some content =>
        simp only [hfb] at hv
        rcases mem_mapSet hv with ⟨hk, _⟩ | hmem
        · right
          refine ⟨hk.symm, hq, ?_⟩
          simp only [b64Of, hzf, hfb, Option.isSome_some]
        · exact Or.inl ⟨v, hmem⟩
  · rw [if_neg hq] at hv
    exact Or.inl ⟨v, hv⟩

theorem step_key_mono {z : Archive} {acc : List (String × String)}
    (e : String × ManifestItem) {k : String}
    (h : ∃ v, (k, v) ∈ acc) : ∃ v, (k, v) ∈ resourceStep z acc e := by
  unfold resourceStep
  by_cases hq : qualifies e.2.mediaType = true
  · rw [if_pos hq]
    cases hzf : zipFile z e.2.href with
    | none => simp only [hzf]; exact h
    | some f =>
      simp only [hzf]
      cases hfb : f.b64 with
      | none => simp only [hfb]; exact h
      | some content => simp only [hfb]; exact key_stable_mapSet h _ _
  · rw [if_neg hq]
    exact h

theorem step_key_hit {z : Archive} (acc : List (String × String))
    {e : String × ManifestItem} {k : String}
    (hh : e.2.href = k) (hq : qualifies e.2.mediaType = true)
    (hb : (b64Of z e.2.href).isSome) :
    ∃ v, (k, v) ∈ resourceStep z acc e := by
  unfold resourceStep
  rw [if_pos hq]
  unfold b64Of at hb
  cases hzf : zipFile z e.2.href with
  | none => simp only [hzf] at hb; exact absurd hb (by simp)
  | some f =>
    simp only [hzf] at hb ⊢
    cases hfb : f.b64 with
    | none => simp only [hfb] at hb; exact absurd hb (by simp)
    | some content =>
      simp only [hfb]
      exact hh ▸ key_mem_mapSet_self acc e.2.href (mkDataUrl e.2.mediaType content)

theorem step_mem {z : Archive} {acc : List (String × String)}
    {e : String × ManifestItem} {k v : String}
    (h : (k, v) ∈ resourceStep z acc e) :
    (k, v) ∈ acc ∨
      ∃ c, e.2.href = k ∧ qualifies e.2.mediaType = true ∧
        b64Of z e.2.href = some c ∧ v = mkDataUrl e.2.mediaType c := by
  unfold resourceStep at h
  by_cases hq : qualifies e.2.mediaType = true
  · rw [if_pos hq] at h
    cases hzf : zipFile z e.2.href with
    | none => simp only [hzf] at h; exact Or.inl h
    | some f =>
      simp only [hzf] at h
      cases hfb : f.b64 with
      | none => simp only [hfb] at h; exact Or.inl h
      | some content =>
        simp only [hfb] at h
        rcases mem_mapSet h with ⟨hk, hv⟩ | hmem
        · right
          refine ⟨content, hk.symm, hq, ?_, hv⟩
          simp only [b64Of, hzf]
          exact hfb
        · exact Or.inl hmem
  · rw [if_neg hq] at h
    exact Or.inl h

theorem step_nodup {z : Archive} {acc : List (String × String)}
    (h : (acc.map Prod.fst).Nodup) (e : String × ManifestItem) :
    ((resourceStep z acc e).map Prod.fst).Nodup := by
  unfold resourceStep
  by_cases hq : qualifies e.2.mediaType = true
  · rw [if_pos hq]
    cases hzf : zipFile z e.2.href with
    | none => simp only [hzf]; exact h
    | some f =>
      simp only [hzf]
      cases hfb : f.b64 with
      | none => simp only [hfb]; exact h
      | some content => simp only [hfb]; exact keys_mapSet_nodup h _ _
  · rw [if_neg hq]
    exact h

theorem foldl_resources_mem {z : Archive} (manifest : Manifest) :
    ∀ (acc : List (String × String)) (k v : String),
      (k, v) ∈ manifest.foldl (resourceStep z) acc →
      (k, v) ∈ acc ∨ ∃ id item c, (id, item) ∈ manifest ∧ item.href = k ∧
        qualifies item.mediaType = true ∧ b64Of z item.href = some c ∧
        v = mkDataUrl item.mediaType c := by
  induction manifest with
  | nil => intro acc k v h; exact Or.inl (by simpa using h)
  | cons e rest ih =>
    intro acc k v h
    simp only [List.foldl_cons] at h
    rcases ih (resourceStep z acc e) k v h with hstep | ⟨id, item, c, hm, hh, hq, hb, hv⟩
    · rcases step_mem hstep with hacc | ⟨c, hh, hq, hb, hv⟩
      · exact Or.inl hacc
      · exact Or.inr ⟨e.1, e.2, c, by simp, hh, hq, hb, hv⟩
    · exact Or.inr ⟨id, item, c, List.mem_cons_of_mem _ hm, hh, hq, hb, hv⟩

theorem foldl_resources_key {z : Archive} (manifest : Manifest) :
    ∀ (acc : List (String × String)) (k : String),
      (∃ v, (k, v) ∈ manifest.foldl (resourceStep z) acc) ↔
      (∃ v, (k, v) ∈ acc) ∨ ∃ id item, (id, item) ∈ manifest ∧ item.href = k ∧
        qualifies item.mediaType = true ∧ (b64Of z item.href).isSome := by
  induction manifest with
  | nil => intro acc k; simp
  | cons e rest ih =>
    intro acc k
    simp only [List.foldl_cons]
    rw [ih (resourceStep z acc e) k]
    constructor
    · rintro (hstep | ⟨id, item, hm, hh, hq, hb⟩)
      · rcases step_key_sub hstep with hacc | ⟨hh, hq, hb⟩
        · exact Or.inl hacc
        · exact Or.inr ⟨e.1, e.2, by simp, hh, hq, hb⟩
      · exact Or.inr ⟨id, item, List.mem_cons_of_mem _ hm, hh, hq, hb⟩
    · rintro (hacc | ⟨id, item, hm, hh, hq, hb⟩)
      · exact Or.inl (step_key_mono e hacc)
      · rcases List.mem_cons.mp hm with heq | hm2
        · left
          have he2 : e.2 = item := by rw [← heq]
          exact step_key_hit acc (he2 ▸ hh) (he2 ▸ hq) (he2 ▸ hb)
        · exact Or.inr ⟨id, item, hm2, hh, hq, hb⟩

theorem foldl_resources_nodup {z : Archive} (manifest : Manifest) :
    ∀ acc : List (String × String), (acc.map Prod.fst).Nodup →
      ((manifest.foldl (resourceStep z) acc).map Prod.fst).Nodup := by
  induction manifest with
  | nil => intro acc h; simpa using h
  | cons e rest ih =>
    intro acc h
    simp only [List.foldl_cons]
    exact ih (resourceStep z acc e) (step_nodup h e)

theorem extractResources_mem {z : Archive} {manifest : Manifest} {k v : String}
    (h : (k, v) ∈ extractResources z manifest) :
    ∃ id item c, (id, item) ∈ manifest ∧ item.href = k ∧
      qualifies item.mediaType = true ∧ b64Of z item.href = some c ∧
      v = mkDataUrl item.mediaType c := by
  rcases foldl_resources_mem manifest [] k v h with hacc | hx
  · exact absurd hacc (by simp)
  · exact hx

theorem extractResources_key {z : Archive} (manifest : Manifest) (k : String) :
    (∃ v, (k, v) ∈ extractResources z manifest) ↔
      ∃ id item, (id, item) ∈ manifest ∧ item.href = k ∧
        qualifies item.mediaType = true ∧ (b64Of z item.href).isSome := by
  unfold extractResources
  rw [foldl_resources_key manifest [] k]
  simp

theorem extractResources_nodup (z : Archive) (manifest : Manifest) :
    ((extractResources z manifest).map Prod.fst).Nodup :=
  foldl_resources_nodup manifest [] (by simp)

theorem findCoverImage_none_iff (z : Archive) (m : Manifest) :
    findCoverImage z m = none ↔
      ∀ id item, (id, item) ∈ m → coverMatches id item = true →
        b64Of z item.href = none := by
  induction m with
  | nil => simp [findCoverImage]
  | cons e rest ih =>
    obtain ⟨id0, item0⟩ := e
    unfold findCoverImage
    by_cases hcm : coverMatches id0 item0 = true
    · rw [if_pos hcm]
      cases hb : b64Of z item0.href with
      | some c =>
        constructor
        · intro h; exact absurd h (by simp)
        · intro h
          have := h id0 item0 (by simp) hcm
          rw [hb] at this
          exact absurd this (by simp)
      | none =>
        rw [ih]
        constructor
        · intro h id item hm hc
          rcases List.mem_cons.mp hm with heq | hm2
          · have h1 : id = id0 := (Prod.mk.injEq .. ▸ heq).1
            have h2 : item = item0 := (Prod.mk.injEq .. ▸ heq).2
            rw [h2]
            exact hb
          · exact h id item hm2 hc
        · intro h id item hm hc
          exact h id item (List.mem_cons_of_mem _ hm) hc
    · rw [if_neg hcm]
      rw [ih]
      constructor
      · intro h id item hm hc
        rcases List.mem_cons.mp hm with heq | hm2
        · have h1 : id = id0 := (Prod.mk.injEq .. ▸ heq).1
          have h2 : item = item0 := (Prod.mk.injEq .. ▸ heq).2
          exact absurd (h1 ▸ h2 ▸ hc) hcm
        · exact h id item hm2 hc
      · intro h id item hm hc
        exact h id item (List.mem_cons_of_mem _ hm) hc

theorem findCoverImage_some_spec (z : Archive) (m : Manifest) (u : String) :
    findCoverImage z m = some u →
    ∃ m1 id item m2 c, m = m1 ++ (id, item) :: m2 ∧ coverMatches id item = true ∧
      b64Of z item.href = some c ∧ u = mkDataUrl item.mediaType c ∧
      ∀ id2 item2, (id2, item2) ∈ m1 → coverMatches id2 item2 = true →
        b64Of z item2.href = none := by
  induction m with
  | nil => intro h; exact absurd h (by simp [findCoverImage])
  | cons e rest ih =>
    obtain ⟨id0, item0⟩ := e
    intro h
    unfold findCoverImage at h
    by_cases hcm : coverMatches id0 item0 = true
    · rw [if_pos hcm] at h
      cases hb : b64Of z item0.href with
      | some c =>
        rw [hb] at h
        exact ⟨[], id0, item0, rest, c, rfl, hcm, hb, (Option.some.inj h).symm, by simp⟩
      | none =>
        rw [hb] at h
        obtain ⟨m1, id, item, m2, c, hm, h1, h2, h3, h4⟩ := ih h
        refine ⟨(id0, item0) :: m1, id, item, m2, c, by simp [hm], h1, h2, h3, ?_⟩
        intro id2 item2 hmem hcm2
        rcases List.mem_cons.mp hmem with heq | hmem2
        · have h5 : item2 = item0 := (Prod.mk.injEq .. ▸ heq).2
          rw [h5]
          exact hb
        · exact h4 id2 item2 hmem2 hcm2
    · rw [if_neg hcm] at h
      obtain ⟨m1, id, item, m2, c, hm, h1, h2, h3, h4⟩ := ih h
      refine ⟨(id0, item0) :: m1, id, item, m2, c, by simp [hm], h1, h2, h3, ?_⟩
      intro id2 item2 hmem hcm2
      rcases List.mem_cons.mp hmem with heq | hmem2
      · have h5 : id2 = id0 := (Prod.mk.injEq .. ▸ heq).1
        have h6 : item2 = item0 := (Prod.mk.injEq .. ▸ heq).2
        exact absurd (h5 ▸ h6 ▸ hcm2) hcm
      · exact h4 id2 item2 hmem2 hcm2

end Epub

/-! ### The claims -/

open Epub

/-- C1: for archives whose container pointer entry is missing, unreadable
or malformed, the top-level parse fails with the container error and no
book is returned; but when only the root-file descriptor's `full-path`
attribute is absent, the parse still fails and returns no book, yet with
the file-not-found error for the empty path rather than the container
error (the amended claim). -/
theorem claim_C1_theorem (px : Px) (z : Archive) :
    ((∃ e, containerResult px z = .error e) →
      parseEpub px z = .error .containerError) ∧
    (∀ doc : XDoc, containerResult px z = .ok doc →
      (((doc.find? (fun n => n.localName == "rootfile")).bind
          (fun n => getAttribute n "full-path")).getD "") = "" →
      zipFile z "" = none →
      parseEpub px z = .error (.fileNotFound "") ∧
        EpubError.fileNotFound "" ≠ EpubError.containerError) := by
  constructor
  · rintro ⟨e, he⟩
    have hfo : findOpfPath px z = .error .containerError := by
      unfold findOpfPath
      simp only [he]
    unfold parseEpub
    simp only [hfo]
  · intro doc hdoc hfp hzf
    have hfo : findOpfPath px z = .ok ("", "") := by
      unfold findOpfPath
      simp only [hdoc, hfp]
      rfl
    have hgf : getFileContent z "" = .error (.fileNotFound "") := by
      unfold getFileContent
      simp only [hzf]
    refine ⟨?_, by decide⟩
    unfold parseEpub
    simp only [hfo, hgf]

/-- Witness for C1: an archive with no container entry yields the
container error; the fixture whose root-file descriptor lacks
`full-path` yields the file-not-found error. -/
theorem claim_C1_witness :
    parseEpub px1 [] = .error .containerError ∧
    parseEpub px1 z1 = .error (.fileNotFound "") :=
  ⟨(claim_C1_theorem px1 []).1 ⟨.fileNotFound "META-INF/container.xml", rfl⟩,
   ((claim_C1_theorem px1 z1).2 containerDocNoPath rfl rfl rfl).1⟩

/-- Counterexample to C1 as stated: `z1`'s container entry parses but
its root-file descriptor lacks `full-path`; the parse fails with the
file-not-found error, not the container error. -/
theorem claim_C1_counterexample :
    containerResult px1 z1 = .ok containerDocNoPath ∧
    ((containerDocNoPath.find? (fun n => n.localName == "rootfile")).bind
        (fun n => getAttribute n "full-path")).getD "" = "" ∧
    parseEpub px1 z1 = .error (.fileNotFound "") ∧
    EpubError.fileNotFound "" ≠ EpubError.containerError :=
  ⟨rfl, rfl, rfl, by decide⟩

/-- C2: in every book returned by `parseEpub`, each chapter's `order` is
the index in the original spine at which that chapter's id was read (the
spine loop index, not the output position), and the orders are strictly
increasing along the output, so drops leave gaps. -/
theorem claim_C2_theorem (px : Px) (z : Archive) (d : String) (doc : XDoc)
    (book : EpubBook)
    (hp : parsedPackage px z = .ok (d, doc))
    (hb : parseEpub px z = .ok book) :
    (∀ i (hi : i < book.chapters.length),
      (extractSpine doc).get? ((book.chapters.get ⟨i, hi⟩).order) =
        some ((book.chapters.get ⟨i, hi⟩).id)) ∧
    List.Chain' (fun a b => a.order < b.order) book.chapters := by
  have hspec := parsedPackage_spec px z d doc hp
  rw [hb] at hspec
  have hch : book.chapters =
      extractChapters px z (extractSpine doc) (extractManifest d doc) := by
    rw [Except.ok.inj hspec]
  constructor
  · intro i hi
    set c := book.chapters.get ⟨i, hi⟩ with hc
    have hmem : c ∈ book.chapters := hc ▸ List.get_mem _ _ _
    rw [hch] at hmem
    obtain ⟨j, hj, ho⟩ := mem_extractChaptersAux (extractSpine doc) 0 c hmem
    rw [ho]
    simpa using hj
  · rw [hch]
    exact extractChaptersAux_chain (extractSpine doc) 0

/-- Witness for C2 at the main fixture: both surviving chapters carry
their spine index as `order` (0 and 2 — a gap where the dropped entry
was), which points back at their ids in the spine. -/
theorem claim_C2_witness :
    (extractSpine opfDocB).get? ((bookB.chapters.get ⟨0, by decide⟩).order) =
      some ((bookB.chapters.get ⟨0, by decide⟩).id) ∧
    (extractSpine opfDocB).get? ((bookB.chapters.get ⟨1, by decide⟩).order) =
      some ((bookB.chapters.get ⟨1, by decide⟩).id) ∧
    List.Chain' (fun a b => a.order < b.order) bookB.chapters ∧
    bookB.chapters.map (fun c => c.order) = [0, 2] :=
  ⟨(claim_C2_theorem pxBook Zbook "OEBPS/" opfDocB bookB rfl rfl).1 0 (by decide),
   (claim_C2_theorem pxBook Zbook "OEBPS/" opfDocB bookB rfl rfl).1 1 (by decide),
   (claim_C2_theorem pxBook Zbook "OEBPS/" opfDocB bookB rfl rfl).2,
   rfl⟩

/-- C3: whenever container and package parsing succeed the whole parse
succeeds (per-chapter failures never propagate, an empty chapter list
being a valid result), and the number of chapters equals the number of
spine entries whose manifest media type is exactly the XHTML content
type and whose content loads and parses. -/
theorem claim_C3_theorem (px : Px) (z : Archive) (d : String) (doc : XDoc)
    (hp : parsedPackage px z = .ok (d, doc)) :
    ∃ book, parseEpub px z = .ok book ∧
      book.chapters.length =
        (extractSpine doc).countP
          (fun id => spineEntryGood px z (extractManifest d doc) id) :=
  ⟨_, parsedPackage_spec px z d doc hp,
    extractChaptersAux_length (extractSpine doc) 0⟩

/-- Witness for C3: the main fixture (one of three spine entries fails
to load) parses with chapter count equal to the surviving-entry count 2,
and the all-entries-missing fixture still parses, with no chapters. -/
theorem claim_C3_witness :
    (∃ book, parseEpub pxBook Zbook = .ok book ∧
      book.chapters.length =
        (extractSpine opfDocB).countP
          (fun id => spineEntryGood pxBook Zbook (extractManifest "OEBPS/" opfDocB) id)) ∧
    (extractSpine opfDocB).countP
        (fun id => spineEntryGood pxBook Zbook (extractManifest "OEBPS/" opfDocB) id) = 2 ∧
    (parseEpub pxBook Zempty).map (fun b => b.chapters) = .ok [] :=
  ⟨claim_C3_theorem pxBook Zbook "OEBPS/" opfDocB rfl, by decide, rfl⟩

/-- C4: in every book returned by `parseEpub`, the resource keys are
exactly the package-directory-relative hrefs of manifest items with
image/css/audio media types whose entries loaded; the keys are
pairwise distinct; and each value is
`"data:" ++ mediaType ++ ";base64," ++ content` for such an item. -/
theorem claim_C4_theorem (px : Px) (z : Archive) (d : String) (doc : XDoc)
    (book : EpubBook)
    (hp : parsedPackage px z = .ok (d, doc))
    (hb : parseEpub px z = .ok book) :
    (book.resources.map Prod.fst).Nodup ∧
    (∀ k : String, (∃ v, (k, v) ∈ book.resources) ↔
      ∃ id item, (id, item) ∈ extractManifest d doc ∧ item.href = k ∧
        qualifies item.mediaType = true ∧ (b64Of z item.href).isSome) ∧
    (∀ k v, (k, v) ∈ book.resources →
      ∃ id item c m, (id, item) ∈ extractManifest d doc ∧ item.href = k ∧
        qualifies item.mediaType = true ∧ b64Of z item.href = some c ∧
        item.mediaType = some m ∧ v = "data:" ++ m ++ ";base64," ++ c) := by
  have hspec := parsedPackage_spec px z d doc hp
  rw [hb] at hspec
  have hres : book.resources = extractResources z (extractManifest d doc) := by
    rw [Except.ok.inj hspec]
  refine ⟨?_, ?_, ?_⟩
  · rw [hres]
    exact extractResources_nodup z _
  · intro k
    rw [hres]
    exact extractResources_key _ k
  · intro k v hkv
    rw [hres] at hkv
    obtain ⟨id, item, c, hm, hh, hq, hb2, hv⟩ := extractResources_mem hkv
    obtain ⟨m, hmt⟩ : ∃ m, item.mediaType = some m := by
      cases hmt : item.mediaType with
      | some m => exact ⟨m, rfl⟩
      | none => rw [hmt] at hq; exact absurd hq (by simp [qualifies])
    refine ⟨id, item, c, m, hm, hh, hq, hb2, hmt, ?_⟩
    rw [hv, hmt]
    rfl

/-- Witness for C4 at the main fixture: the cover image's key obeys the
key-set characterization, the key list has no duplicates, and the stored
value is the data reference built from its media type and payload. -/
theorem claim_C4_witness :
    (bookB.resources.map Prod.fst).Nodup ∧
    ((∃ v, ("OEBPS/img1.png", v) ∈ bookB.resources) ↔
      ∃ id item, (id, item) ∈ extractManifest "OEBPS/" opfDocB ∧
        item.href = "OEBPS/img1.png" ∧ qualifies item.mediaType = true ∧
        (b64Of Zbook item.href).isSome) ∧
    (∃ id item c m, (id, item) ∈ extractManifest "OEBPS/" opfDocB ∧
      item.href = "OEBPS/img1.png" ∧ qualifies item.mediaType = true ∧
      b64Of Zbook item.href = some c ∧ item.mediaType = some m ∧
      "data:image/png;base64,QUJD" = "data:" ++ m ++ ";base64," ++ c) :=
  ⟨(claim_C4_theorem pxBook Zbook "OEBPS/" opfDocB bookB rfl rfl).1,
   (claim_C4_theorem pxBook Zbook "OEBPS/" opfDocB bookB rfl rfl).2.1 "OEBPS/img1.png",
   (claim_C4_theorem pxBook Zbook "OEBPS/" opfDocB bookB rfl rfl).2.2
     "OEBPS/img1.png" "data:image/png;base64,QUJD" (by decide)⟩

/-- C5 (amended): cover resolution scans the manifest in insertion
order; it returns the data reference of the first item that matches the
cover condition — `properties` containing the marker as a substring, or
a reserved id — AND whose entry loads; a matching item that fails to
load is skipped in favour of later matches, and no cover is returned
exactly when every matching item fails to load. -/
theorem claim_C5_theorem (z : Archive) (m : Manifest) :
    (findCoverImage z m = none ↔
      ∀ id item, (id, item) ∈ m → coverMatches id item = true →
        b64Of z item.href = none) ∧
    (∀ u, findCoverImage z m = some u →
      ∃ m1 id item m2 c, m = m1 ++ (id, item) :: m2 ∧ coverMatches id item = true ∧
        b64Of z item.href = some c ∧ u = mkDataUrl item.mediaType c ∧
        ∀ id2 item2, (id2, item2) ∈ m1 → coverMatches id2 item2 = true →
          b64Of z item2.href = none) :=
  ⟨findCoverImage_none_iff z m, fun u => findCoverImage_some_spec z m u⟩

/-- Witness for C5: with the first cover candidate's entry missing, the
second candidate's data reference is returned, the skipped prefix
consisting of failed matches. -/
theorem claim_C5_witness :
    ∃ m1 id item m2 c, m5w = m1 ++ (id, item) :: m2 ∧
      coverMatches id item = true ∧
      b64Of z5w item.href = some c ∧
      "data:image/png;base64,QkJC" = mkDataUrl item.mediaType c ∧
      ∀ id2 item2, (id2, item2) ∈ m1 → coverMatches id2 item2 = true →
        b64Of z5w item2.href = none :=
  (claim_C5_theorem z5w m5w).2 "data:image/png;base64,QkJC" rfl

/-- Counterexample to C5 as stated: an item whose `properties` token
list does not contain the cover marker (it only contains it as a proper
substring) under a non-reserved id is nevertheless selected, so the
code's result differs from the claim's token-list rule. -/
theorem claim_C5_counterexample :
    findCoverImage z5 m5 = some "data:image/png;base64,QUJD" ∧
    specFindCoverByClaim z5 m5 = none ∧
    (tokenList "xcover-imagey").contains "cover-image" = false ∧
    findCoverImage z5 m5 ≠ specFindCoverByClaim z5 m5 :=
  ⟨rfl, rfl, by decide, by decide⟩

/-- C6 (amended): every chapter's title is derived from its parsed
document as the trimmed text of the first element in document order
whose local name is `h1`, `h2`, `h3` or `title` (not in level-priority
order), falling back to `Chapter N` (1-based spine position) when no
such element exists or the first one's trimmed text is empty. -/
theorem claim_C6_theorem (px : Px) (z : Archive) (spine : List String)
    (manifest : Manifest) :
    ∀ c ∈ extractChapters px z spine manifest,
      ∃ item doc, mapGet manifest c.id = some item ∧
        chapterDocResult px z item.href = .ok doc ∧
        c.title = derivedTitle doc (c.order + 1) :=
  fun c hc => extractChaptersAux_title spine 0 c hc

/-- Witness for C6: the fixture chapter's title is derived by the
document-order rule from its parsed document. -/
theorem claim_C6_witness :
    ∃ item doc, mapGet manifest6 chapterC6.id = some item ∧
      chapterDocResult px6 z6 item.href = .ok doc ∧
      chapterC6.title = derivedTitle doc (chapterC6.order + 1) :=
  claim_C6_theorem px6 z6 ["ch1"] manifest6 chapterC6 (by decide)

/-- Counterexample to C6 as stated: in a document whose `title` element
precedes its `h1` (the normal XHTML head/body layout), the code derives
the `title` element's text, not the level-1 heading's text demanded by
the claim's priority order. -/
theorem claim_C6_counterexample :
    (extractChapters px6 z6 ["ch1"] manifest6).map (fun c => c.title) = ["T"] ∧
    specTitleByClaim chapterDoc6 1 = "H" ∧
    ("T" : String) ≠ "H" :=
  ⟨rfl, rfl, by decide⟩

/-- C7 (amended): metadata extraction tries the strategies in the fixed
order name-attribute, property-attribute, namespaced scan, plain tag,
but the first strategy yielding an ELEMENT wins and its (possibly empty)
trimmed text is returned — an element found early with empty text does
not fall through to later strategies; only when a whole field read is
empty do the field-level fallbacks and the defaults apply. -/
theorem claim_C7_theorem (doc : XDoc) (name : String) :
    (∀ e, metaByName doc name = some e →
      getMetaContent doc name = jsTrim e.textContent) ∧
    (metaByName doc name = none → ∀ e, metaByProperty doc name = some e →
      getMetaContent doc name = jsTrim e.textContent) ∧
    (metaByName doc name = none → metaByProperty doc name = none →
      ∀ e, metaDcScan doc name = some e →
      getMetaContent doc name = jsTrim e.textContent) ∧
    (metaByName doc name = none → metaByProperty doc name = none →
      metaDcScan doc name = none → ∀ e, metaByTag doc name = some e →
      getMetaContent doc name = jsTrim e.textContent) ∧
    (metaByName doc name = none → metaByProperty doc name = none →
      metaDcScan doc name = none → metaByTag doc name = none →
      getMetaContent doc name = "") ∧
    (getMetaContent doc "dc:title" = "" → getMetaContent doc "title" = "" →
      (extractMetadata doc).title = "Unknown Title") ∧
    (getMetaContent doc "dc:creator" = "" → getMetaContent doc "creator" = "" →
      (extractMetadata doc).author = "Unknown Author") ∧
    (getMetaContent doc "dc:language" = "" → getMetaContent doc "language" = "" →
      (extractMetadata doc).language = "en") ∧
    (getMetaContent doc "dc:identifier" = "" → getMetaContent doc "identifier" = "" →
      (extractMetadata doc).identifier = "") := by
  refine ⟨?_, ?_, ?_, ?_, ?_, ?_, ?_, ?_, ?_⟩
  · intro e he
    unfold getMetaContent
    simp only [he]
  · intro h1 e he
    unfold getMetaContent
    simp only [h1, he]
  · intro h1 h2 e he
    unfold getMetaContent
    simp only [h1, h2, he]
  · intro h1 h2 h3 e he
    unfold getMetaContent
    simp only [h1, h2, h3, he]
  · intro h1 h2 h3 h4
    unfold getMetaContent
    simp only [h1, h2, h3, h4]
  · intro h1 h2
    simp [extractMetadata, h1, h2, jsOr]
  · intro h1 h2
    simp [extractMetadata, h1, h2, jsOr]
  · intro h1 h2
    simp [extractMetadata, h1, h2, jsOr]
  · intro h1 h2
    simp [extractMetadata, h1, h2, jsOr]

/-- Witness for C7: on the fixture document the name-attribute element
is found first and its (blank) trimmed text is the field result. -/
theorem claim_C7_witness :
    getMetaContent doc7 "dc:title" = jsTrim meta7name.textContent :=
  (claim_C7_theorem doc7 "dc:title").1 meta7name rfl

/-- Counterexample to C7 as stated: with a blank name-attribute element
and a non-empty property-attribute element, the code yields the default
title while the claim's first-non-empty rule yields the property
element's text. -/
theorem claim_C7_counterexample :
    (extractMetadata doc7).title = "Unknown Title" ∧
    specTitleFieldByClaim doc7 = "PropTitle" ∧
    ("Unknown Title" : String) ≠ "PropTitle" :=
  ⟨rfl, rfl, by decide⟩

/-- C8: on the claim's designated instance — a chapter whose markup is
one `<img src="cover.jpg">` and a resources map with the single key
`OEBPS/images/cover.jpg` — running the Content Rewriter twice equals
running it once (the rewrite is a fixed point on its own output). -/
theorem claim_C8_theorem :
    processContent [("OEBPS/images/cover.jpg", "data:image/jpeg;base64,QUJD")]
        (processContent [("OEBPS/images/cover.jpg", "data:image/jpeg;base64,QUJD")]
          "<img src=\"cover.jpg\">") =
      processContent [("OEBPS/images/cover.jpg", "data:image/jpeg;base64,QUJD")]
        "<img src=\"cover.jpg\">" ∧
    processContent [("OEBPS/images/cover.jpg", "data:image/jpeg;base64,QUJD")]
        "<img src=\"cover.jpg\">" = "<img src=\"data:image/jpeg;base64,QUJD\">" :=
  ⟨rfl, rfl⟩

/-- C9 (amended): the chapter ids of a parsed book are pairwise distinct
whenever the spine itself contains no duplicate idref; an archive whose
spine references the same manifest id twice yields duplicate chapter
ids (see the counterexample). -/
theorem claim_C9_theorem (px : Px) (z : Archive) (d : String) (doc : XDoc)
    (book : EpubBook)
    (hp : parsedPackage px z = .ok (d, doc))
    (hb : parseEpub px z = .ok book)
    (hnd : (extractSpine doc).Nodup) :
    (book.chapters.map (fun c => c.id)).Nodup := by
  have hspec := parsedPackage_spec px z d doc hp
  rw [hb] at hspec
  have hch : book.chapters =
      extractChapters px z (extractSpine doc) (extractManifest d doc) := by
    rw [Except.ok.inj hspec]
  rw [hch]
  exact (extractChaptersAux_ids_sublist (extractSpine doc) 0).nodup hnd

/-- Witness for C9 at the main fixture (duplicate-free spine): the
chapter ids are pairwise distinct. -/
theorem claim_C9_witness :
    (bookB.chapters.map (fun c => c.id)).Nodup :=
  claim_C9_theorem pxBook Zbook "OEBPS/" opfDocB bookB rfl rfl (by decide)

/-- Counterexample to C9 as stated: an archive whose spine references
the same manifest id twice produces a book with two chapters sharing the
id, so chapter ids are not unique within a book. -/
theorem claim_C9_counterexample :
    (parseEpub px9 z9).map (fun b => b.chapters.map (fun c => c.id)) =
      .ok ["ch1", "ch1"] ∧
    ¬ (["ch1", "ch1"] : List String).Nodup :=
  ⟨rfl, by decide⟩

/-- C10: the cover-matching condition never consults the media type, and
the returned cover is `"data:" ++ mediaType ++ ";base64," ++ content`
for the matched item whatever its media type; when the `media-type`
attribute is absent the returned string begins with
`"data:null;base64,"`. -/
theorem claim_C10_theorem :
    (∀ (id href : String) (mt1 mt2 props : Option String),
      coverMatches id ⟨href, mt1, props⟩ = coverMatches id ⟨href, mt2, props⟩) ∧
    (∀ (z : Archive) (m : Manifest) (u : String),
      findCoverImage z m = some u →
      ∃ id item c, (id, item) ∈ m ∧ coverMatches id item = true ∧
        b64Of z item.href = some c ∧ u = mkDataUrl item.mediaType c ∧
        (item.mediaType = none → u = "data:null;base64," ++ c)) := by
  constructor
  · intro id href mt1 mt2 props
    rfl
  · intro z m u h
    obtain ⟨m1, id, item, m2, c, hm, h1, h2, h3, _⟩ := findCoverImage_some_spec z m u h
    refine ⟨id, item, c, by simp [hm], h1, h2, h3, ?_⟩
    intro hmt
    rw [h3, hmt]
    rfl

/-- Witness for C10: a matched cover candidate with no `media-type`
attribute yields a cover beginning with `data:null;base64,`. -/
theorem claim_C10_witness :
    ∃ id item c, (id, item) ∈ mX ∧ coverMatches id item = true ∧
      b64Of zX item.href = some c ∧
      "data:null;base64,QUJD" = mkDataUrl item.mediaType c ∧
      (item.mediaType = none → "data:null;base64,QUJD" = "data:null;base64," ++ c) :=
  claim_C10_theorem.2 zX mX "data:null;base64,QUJD" rfl
